import Mathlib

/-!
Verification of the zense request-processing core against its specification.

Rust strings and byte buffers are embedded as `List Nat` (each element one
byte, `< 256` for genuine byte data); a Rust `&str` is a byte list that is
valid UTF-8.  Pure functions of the source become Lean functions; fallible
functions return `Except`.  Code of external crates (`httparse`,
`percent-encoding`) and files of the repository whose source is not
available (URI splitting, the component catalogs, `Response`, `Scope`,
`Matcher`, `Stack`) is modelled from the specification, marked by a doc
comment starting with `Modelled from the spec:`.
-/

namespace Zense

/-- Bytes of an ASCII string literal (used only on ASCII strings, where the
UTF-8 bytes coincide with the code points). -/
def strBytes (s : String) : List Nat :=
  s.toList.map (fun c => c.toNat)

/-- Encoding kind, from `http/request/uri/encoding.rs` (`Kind`). -/
inductive Kind where
  | path
  | query
deriving DecidableEq

/-- Characters that must be percent-encoded in paths, from
`http/request/uri/encoding.rs` (`URI_PATH`): the C0 controls and DEL
(`percent_encoding::CONTROLS`) plus the added ASCII characters. -/
def uriPathSet (b : Nat) : Bool :=
  b ≤ 0x1F || b = 0x7F ||
  b = 0x20 || b = 0x22 || b = 0x23 || b = 0x25 || b = 0x3C || b = 0x3E ||
  b = 0x3F || b = 0x5B || b = 0x5D || b = 0x5E || b = 0x60 || b = 0x7B ||
  b = 0x7C || b = 0x7D || b = 0x7E

/-- Characters that must be percent-encoded in query strings, from
`http/request/uri/encoding.rs` (`URI_QUERY`). -/
def uriQuerySet (b : Nat) : Bool :=
  b ≤ 0x1F || b = 0x7F ||
  b = 0x20 || b = 0x22 || b = 0x23 || b = 0x25 || b = 0x3C || b = 0x3E ||
  b = 0x5B || b = 0x5D || b = 0x5E || b = 0x60 || b = 0x7B ||
  b = 0x7C || b = 0x7D

/-- Modelled from the spec: the `percent-encoding` crate encodes a byte when
it is non-ASCII or contained in the given `AsciiSet`. -/
def shouldEncode (set : Nat → Bool) (b : Nat) : Bool :=
  !(b < 0x80) || set b

/-- Upper-case hexadecimal digit of a value `< 16`, as emitted by the
`percent-encoding` crate. -/
def hexDigit (n : Nat) : Nat :=
  if n < 10 then 48 + n else 55 + n

/-- Modelled from the spec: percent-encoding of a byte sequence, each byte of
the set replaced by `%` and two upper-case hexadecimal digits. -/
def percentEncode (set : Nat → Bool) : List Nat → List Nat
  | [] => []
  | b :: r =>
    if shouldEncode set b then
      0x25 :: hexDigit (b / 16) :: hexDigit (b % 16) :: percentEncode set r
    else
      b :: percentEncode set r

/-- Hexadecimal digit test (both cases), as accepted by percent-decoding. -/
def isHex (c : Nat) : Bool :=
  (48 ≤ c && c ≤ 57) || (65 ≤ c && c ≤ 70) || (97 ≤ c && c ≤ 102)

/-- Value of a hexadecimal digit byte. -/
def hexVal (c : Nat) : Nat :=
  if c ≤ 57 then c - 48 else if c ≤ 70 then c - 55 else c - 87

/-- Modelled from the spec: percent-decoding.  A `%` followed by two
hexadecimal digits becomes the denoted byte; otherwise the `%` passes
through literally and scanning continues at the next byte. -/
def percentDecode : List Nat → List Nat
  | [] => []
  | b :: r =>
    if b = 0x25 then
      match r with
      | h1 :: h2 :: r2 =>
        if isHex h1 && isHex h2 then
          (hexVal h1 * 16 + hexVal h2) :: percentDecode r2
        else
          b :: percentDecode (h1 :: h2 :: r2)
      | [h1] => b :: percentDecode [h1]
      | [] => [b]
    else
      b :: percentDecode r
termination_by l => l.length
decreasing_by all_goals simp [List.length_cons] <;> omega

/-- Length of the UTF-8 sequence announced by a leading byte (0 if the byte
cannot lead a sequence). -/
def utf8SeqLen (b : Nat) : Nat :=
  if b < 0x80 then 1
  else if 0xC2 ≤ b && b ≤ 0xDF then 2
  else if 0xE0 ≤ b && b ≤ 0xEF then 3
  else if 0xF0 ≤ b && b ≤ 0xF4 then 4
  else 0

/-- UTF-8 continuation byte test. -/
def isCont (b : Nat) : Bool :=
  0x80 ≤ b && b ≤ 0xBF

/-- Lower bound for the second byte of a UTF-8 sequence led by `b`. -/
def contLo (b : Nat) : Nat :=
  if b = 0xE0 then 0xA0 else if b = 0xF0 then 0x90 else 0x80

/-- Upper bound for the second byte of a UTF-8 sequence led by `b`. -/
def contHi (b : Nat) : Nat :=
  if b = 0xED then 0x9F else if b = 0xF4 then 0x8F else 0xBF

/-- Admissibility of the second byte `c` of a UTF-8 sequence led by `b`. -/
def cont2Ok (b c : Nat) : Bool :=
  contLo b ≤ c && c ≤ contHi b

/-- UTF-8 bytes of the Unicode replacement character U+FFFD. -/
def repl : List Nat := [0xEF, 0xBF, 0xBD]

/-- Modelled from the spec: lossy UTF-8 decoding at the byte level.  Valid
scalar sequences are copied; each maximal ill-formed subpart (including a
truncated sequence at the end of input) is replaced by U+FFFD. -/
def utf8Fix : List Nat → List Nat
  | [] => []
  | b :: r =>
    if b < 0x80 then b :: utf8Fix r
    else if utf8SeqLen b = 2 then
      match r with
      | [] => repl
      | c :: r2 =>
        if isCont c then b :: c :: utf8Fix r2 else repl ++ utf8Fix (c :: r2)
    else if utf8SeqLen b = 3 then
      match r with
      | [] => repl
      | c :: r2 =>
        if cont2Ok b c then
          match r2 with
          | [] => repl
          | d :: r3 =>
            if isCont d then b :: c :: d :: utf8Fix r3
            else repl ++ utf8Fix (d :: r3)
        else repl ++ utf8Fix (c :: r2)
    else if utf8SeqLen b = 4 then
      match r with
      | [] => repl
      | c :: r2 =>
        if cont2Ok b c then
          match r2 with
          | [] => repl
          | d :: r3 =>
            if isCont d then
              match r3 with
              | [] => repl
              | e :: r4 =>
                if isCont e then b :: c :: d :: e :: utf8Fix r4
                else repl ++ utf8Fix (e :: r4)
            else repl ++ utf8Fix (d :: r3)
        else repl ++ utf8Fix (c :: r2)
    else repl ++ utf8Fix r

/-- UTF-8 validity of a byte sequence (the well-formedness invariant of a
Rust `str`), with the same case structure as `utf8Fix`. -/
def validUtf8 : List Nat → Bool
  | [] => true
  | b :: r =>
    if b < 0x80 then validUtf8 r
    else if utf8SeqLen b = 2 then
      match r with
      | [] => false
      | c :: r2 => isCont c && validUtf8 r2
    else if utf8SeqLen b = 3 then
      match r with
      | [] => false
      | c :: r2 =>
        if cont2Ok b c then
          match r2 with
          | [] => false
          | d :: r3 => isCont d && validUtf8 r3
        else false
    else if utf8SeqLen b = 4 then
      match r with
      | [] => false
      | c :: r2 =>
        if cont2Ok b c then
          match r2 with
          | [] => false
          | d :: r3 =>
            if isCont d then
              match r3 with
              | [] => false
              | e :: r4 => isCont e && validUtf8 r4
            else false
        else false
    else false

/-- `encode` from `http/request/uri/encoding.rs`: selects the character set
by kind and percent-encodes. -/
def encode (value : List Nat) (kind : Kind) : List Nat :=
  percentEncode (match kind with | .path => uriPathSet | .query => uriQuerySet) value

/-- `decode` from `http/request/uri/encoding.rs`: percent-decodes and repairs
invalid UTF-8 with the replacement character (`decode_utf8_lossy`). -/
def decode (value : List Nat) : List Nat :=
  utf8Fix (percentDecode value)

deriving instance DecidableEq for Except

/-- Result of a parsing step: needs more input, malformed input, or a value
(the three-way status of the wire parser). -/
inductive PR (α : Type) where
  | more : PR α
  | bad : PR α
  | done : α → PR α
deriving DecidableEq

/-- Modelled from the spec: bytes legal in a method or header-name token
(RFC 7230 tchar: digits, letters, and `!#$%&+*-.^_|~`, apostrophe and
backquote). -/
def isTok (b : Nat) : Bool :=
  (48 ≤ b && b ≤ 57) || (65 ≤ b && b ≤ 90) || (97 ≤ b && b ≤ 122) ||
  b = 33 || (35 ≤ b && b ≤ 39) || b = 42 || b = 43 || b = 45 || b = 46 ||
  b = 94 || b = 95 || b = 96 || b = 124 || b = 126

/-- Modelled from the spec: bytes legal in the request-target between the
two spaces of the request line (printable ASCII). -/
def isUriChar (b : Nat) : Bool :=
  33 ≤ b && b ≤ 126

/-- Modelled from the spec: bytes legal in a header value (tab, printable
ASCII, and high bytes). -/
def isValChar (b : Nat) : Bool :=
  b = 9 || (32 ≤ b && b ≤ 126) || (128 ≤ b && b ≤ 255)

/-- Modelled from the spec: continue scanning a token already begun; the
`stop` byte ends the token, an illegal byte is malformed, and end of input
means the request is truncated. -/
def scanRest (allowed : Nat → Bool) (stop : Nat) : List Nat → PR (List Nat × List Nat)
  | [] => .more
  | b :: r =>
    if b = stop then .done ([], r)
    else if allowed b then
      match scanRest allowed stop r with
      | .done (t, rest) => .done (b :: t, rest)
      | .more => .more
      | .bad => .bad
    else .bad

/-- Modelled from the spec: scan a non-empty token delimited by `stop`; the
first byte must already be legal. -/
def scanToken (allowed : Nat → Bool) (stop : Nat) : List Nat → PR (List Nat × List Nat)
  | [] => .more
  | b :: r =>
    if allowed b then
      match scanRest allowed stop r with
      | .done (t, rest) => .done (b :: t, rest)
      | .more => .more
      | .bad => .bad
    else .bad

/-- Modelled from the spec: match a literal byte sequence; running out of
input is a truncation, a mismatch is malformed. -/
def expectLit : List Nat → List Nat → PR (List Nat)
  | [], buf => .done buf
  | _ :: _, [] => .more
  | l :: ls, b :: bs => if b = l then expectLit ls bs else .bad

/-- Bytes of `HTTP/1.1` followed by CRLF, ending the request line. -/
def versionBytes : List Nat := [72, 84, 84, 80, 47, 49, 46, 49, 13, 10]

/-- Modelled from the spec: scan a header value up to and including CRLF. -/
def scanValue : List Nat → PR (List Nat × List Nat)
  | [] => .more
  | b :: r =>
    if b = 13 then
      match r with
      | [] => .more
      | c :: r2 => if c = 10 then .done ([], r2) else .bad
    else if isValChar b then
      match scanValue r with
      | .done (v, rest) => .done (b :: v, rest)
      | .more => .more
      | .bad => .bad
    else .bad

/-- Modelled from the spec: parse one header line `Name: value CRLF`,
skipping spaces between the colon and the value. -/
def parseHeader (buf : List Nat) : PR ((List Nat × List Nat) × List Nat) :=
  match scanToken isTok 58 buf with
  | .more => .more
  | .bad => .bad
  | .done (name, r1) =>
    match scanValue (r1.dropWhile (fun b => b == 32)) with
    | .more => .more
    | .bad => .bad
    | .done (value, rest) => .done ((name, value), rest)

/-- Sequencing of parse results: short-circuits truncation and malformed
input, continues on a value. -/
def prBind {α β : Type} (x : PR α) (f : α → PR β) : PR β :=
  match x with
  | .more => .more
  | .bad => .bad
  | .done a => f a

/-- Modelled from the spec: the tail of the header-terminating blank line,
after its leading CR: expect the LF creating the body boundary. -/
def crlfEnd : List Nat → PR (List (List Nat × List Nat) × List Nat)
  | [] => .more
  | c :: r2 => if c = 10 then .done ([], r2) else .bad

/-- Modelled from the spec: parse header lines until the terminating CRLF,
with capacity for `n` more headers; one further header is malformed (the
64-slot header array of `Request::from_bytes`, `TooManyHeaders`). -/
def parseHeaders (n : Nat) (buf : List Nat) : PR (List (List Nat × List Nat) × List Nat) :=
  match buf with
  | [] => .more
  | b :: r =>
    if b = 13 then crlfEnd r
    else
      match n with
      | 0 => .bad
      | n' + 1 =>
        prBind (parseHeader (b :: r)) (fun hr =>
          prBind (parseHeaders n' hr.2) (fun hb => .done (hr.1 :: hb.1, hb.2)))

/-- Modelled from the spec: the wire parser for one request, as used by
`Request::from_bytes` with a 64-header array: request line
`METHOD SP PATH SP HTTP/1.1 CRLF`, header lines, terminating CRLF; returns
method bytes, raw target bytes, raw headers, and the remaining body. -/
def parseRequest (buf : List Nat) :
    PR (List Nat × List Nat × List (List Nat × List Nat) × List Nat) :=
  match scanToken isTok 32 buf with
  | .more => .more
  | .bad => .bad
  | .done (m, r1) =>
    match scanToken isUriChar 32 r1 with
    | .more => .more
    | .bad => .bad
    | .done (p, r2) =>
      match expectLit versionBytes r2 with
      | .more => .more
      | .bad => .bad
      | .done r3 =>
        match parseHeaders 64 r3 with
        | .more => .more
        | .bad => .bad
        | .done (hs, body) => .done (m, p, hs, body)

/-- Modelled from the spec: the closed catalog of request methods. -/
inductive Method where
  | get | head | post | put | delete | connect | options | trace | patch
deriving DecidableEq

/-- Modelled from the spec: parsing a method token into the closed catalog;
unknown tokens fail (the `Component` error of `Request::from_bytes`). -/
def methodFromBytes (m : List Nat) : Option Method :=
  if m = strBytes "GET" then some .get
  else if m = strBytes "HEAD" then some .head
  else if m = strBytes "POST" then some .post
  else if m = strBytes "PUT" then some .put
  else if m = strBytes "DELETE" then some .delete
  else if m = strBytes "CONNECT" then some .connect
  else if m = strBytes "OPTIONS" then some .options
  else if m = strBytes "TRACE" then some .trace
  else if m = strBytes "PATCH" then some .patch
  else none

/-- Modelled from the spec: the closed catalog of header names (a
representative part of the fixed external catalog). -/
inductive Header where
  | host | accept | connection | contentType | contentLength
deriving DecidableEq

/-- ASCII lower-casing of one byte. -/
def lowerByte (b : Nat) : Nat :=
  if 65 ≤ b && b ≤ 90 then b + 32 else b

/-- Modelled from the spec: case-insensitive parsing of a header name into
the closed catalog; unknown names yield `none`. -/
def headerFromBytes (n : List Nat) : Option Header :=
  let l := n.map lowerByte
  if l = strBytes "host" then some .host
  else if l = strBytes "accept" then some .accept
  else if l = strBytes "connection" then some .connection
  else if l = strBytes "content-type" then some .contentType
  else if l = strBytes "content-length" then some .contentLength
  else none

/-- `Uri` from the URI model: a raw (undecoded) path and an optional raw
query string. -/
structure Uri where
  path : List Nat
  query : Option (List Nat)
deriving DecidableEq

/-- Modelled from the spec: `Uri::from` splits the raw target on the first
`?`; the path is stored undecoded. -/
def Uri.ofRaw (p : List Nat) : Uri :=
  { path := p.takeWhile (fun b => !(b == 63))
    query :=
      if p.any (fun b => b == 63) then
        some ((p.dropWhile (fun b => !(b == 63))).drop 1)
      else none }

/-- `Request` from `http/request.rs`: method, URI, recognized headers, body. -/
structure Request where
  method : Method
  uri : Uri
  headers : List (Header × List Nat)
  body : List Nat
deriving DecidableEq

/-- The parse error surface of `http/request/error.rs`: `Incomplete`,
`Parser`, `Component`, `Security` with a reason. -/
inductive Error where
  | Incomplete : Error
  | Parser : Error
  | Component : Error
  | Security : String → Error
deriving DecidableEq

/-- Substring test for `..` on raw path bytes (`uri.path.contains("..")`). -/
def hasDotDot : List Nat → Bool
  | a :: b :: r => (a == 46 && b == 46) || hasDotDot (b :: r)
  | _ => false

/-- `Request::from_bytes` from `http/request.rs`: parse the wire bytes,
map the method token into the catalog (`Component` on failure), split the
target into the URI, keep only recognized headers with UTF-8 values, then
reject paths over 4kb and paths containing `..` as `Security`. -/
def Request.fromBytes (bytes : List Nat) : Except Error Request :=
  match parseRequest bytes with
  | .more => .error .Incomplete
  | .bad => .error .Parser
  | .done (m, p, hs, body) =>
    match methodFromBytes m with
    | none => .error .Component
    | some method =>
      let uri := Uri.ofRaw p
      let headers := hs.filterMap (fun h =>
        if validUtf8 h.2 then (headerFromBytes h.1).map (fun name => (name, h.2))
        else none)
      if 4 * 1024 < uri.path.length then .error (.Security "exceeds size of 4kb")
      else if hasDotDot uri.path then .error (.Security "path traversal")
      else .ok { method := method, uri := uri, headers := headers, body := body }

/-- One header line `Name: value CRLF` as wire bytes. -/
def headerLine (h : List Nat × List Nat) : List Nat :=
  h.1 ++ 58 :: 32 :: (h.2 ++ [13, 10])

/-- A full request line `METHOD SP PATH SP HTTP/1.1 CRLF` as wire bytes. -/
def requestLine (m p : List Nat) : List Nat :=
  m ++ 32 :: (p ++ 32 :: versionBytes)

/-- A full request as wire bytes: request line, header lines, terminating
CRLF, body. -/
def buildRequest (m p : List Nat) (hs : List (List Nat × List Nat))
    (body : List Nat) : List Nat :=
  m ++ 32 :: (p ++ 32 :: (versionBytes ++ ((hs.map headerLine).flatten ++ 13 :: 10 :: body)))

/-- Well-formedness of one raw header for the wire builder: non-empty token
name, legal value bytes, no leading space in the value. -/
abbrev wfHeader (h : List Nat × List Nat) : Prop :=
  h.1 ≠ [] ∧ (∀ b ∈ h.1, isTok b = true) ∧ (∀ b ∈ h.2, isValChar b = true) ∧
  h.2.head? ≠ some 32

/-- A raw request target of 4099 bytes (`/` then 1366 copies of `%61`) whose
percent-decoded form has only 1367 bytes. -/
def bigPath : List Nat :=
  47 :: (List.replicate 1366 [37, 54, 49]).flatten

/-- `Request::new` (the default request): method `Get`, empty URI, no
headers, empty body. -/
def Request.new : Request :=
  { method := .get, uri := { path := [], query := none }, headers := [], body := [] }

/-- Modelled from the spec: the closed catalog of status codes (the part
used here). -/
inductive Status where
  | ok | notFound | internalServerError
deriving DecidableEq

/-- Modelled from the spec: the numeric code of a status. -/
def Status.code : Status → Nat
  | .ok => 200
  | .notFound => 404
  | .internalServerError => 500

/-- Modelled from the spec: the canonical name of a status. -/
def Status.name : Status → String
  | .ok => "OK"
  | .notFound => "Not Found"
  | .internalServerError => "Internal Server Error"

/-- Modelled from the spec: an HTTP response consisting of a status, ordered
headers, and a body. -/
structure Response where
  status : Status
  headers : List (Header × List Nat)
  body : List Nat
deriving DecidableEq

/-- Modelled from the spec: `Response::new`, a response with status 200 OK,
no headers and an empty body. -/
def Response.new : Response :=
  { status := .ok, headers := [], body := [] }

/-- Modelled from the spec: the fluent `status` setter of `Response`. -/
def Response.setStatus (res : Response) (s : Status) : Response :=
  { res with status := s }

/-- Modelled from the spec: the fluent `header` setter of `Response`,
appending one header. -/
def Response.setHeader (res : Response) (h : Header) (v : List Nat) : Response :=
  { res with headers := res.headers ++ [(h, v)] }

/-- Modelled from the spec: the fluent `body` setter of `Response`. -/
def Response.setBody (res : Response) (b : List Nat) : Response :=
  { res with body := b }

/-- `ResponseExt::from_status` from `http/response/extension.rs`: a response
with the given status, a plain-text content type, a content length, and the
status's canonical name as body. -/
def Response.fromStatus (s : Status) : Response :=
  let content := strBytes s.name
  (((Response.new.setStatus s).setHeader
      .contentType (strBytes "text/plain; charset=utf-8")).setHeader
      .contentLength (strBytes (toString content.length))).setBody content

/-- A `Handler` value (`handle(Request) -> Response`): the semantic content
of the `Handler` trait of `handler.rs`. -/
abbrev HandlerFn := Request → Response

/-- A `Middleware` value (`process(Request, next) -> Response`): the
semantic content of the `Middleware` trait of `middleware.rs`. -/
abbrev MiddlewareFn := Request → HandlerFn → Response

/-- `NotFound::handle` from `handler.rs`: always answers with
`Response::from_status(Status::NotFound)`. -/
def notFoundHandle : HandlerFn :=
  fun _ => Response.fromStatus Status.notFound

/-- `IntoResponse` from `http/response/conversion.rs`. -/
class IntoResponse (α : Type) where
  intoResponse : α → Response

/-- The identity `IntoResponse` instance for `Response`. -/
instance : IntoResponse Response :=
  ⟨fun r => r⟩

/-- The `IntoResponse` instance for `Result<Response, E>` from
`http/response/conversion.rs`: an error becomes a plain 500 response. -/
instance (E : Type) : IntoResponse (Except E Response) :=
  ⟨fun r =>
    match r with
    | .ok res => res
    | .error _ => Response.fromStatus Status.internalServerError⟩

/-- The blanket `Handler` implementation of `handler.rs` for functions whose
result converts into a response. -/
def handlerOfFn {R : Type} [IntoResponse R] (f : Request → R) : HandlerFn :=
  fun req => IntoResponse.intoResponse (f req)

/-- The blanket `Middleware` implementation of `middleware.rs` for functions
whose result converts into a response. -/
def middlewareOfFn {R : Type} [IntoResponse R] (f : Request → HandlerFn → R) :
    MiddlewareFn :=
  fun req next => IntoResponse.intoResponse (f req next)

/-- The construction error surface of `handler/error.rs`: `Matcher` and
`Middleware` kinds, each with a reason. -/
inductive HError where
  | matcher : String → HError
  | middleware : String → HError
deriving DecidableEq

/-- Modelled from the spec: one segment of a route pattern. -/
inductive Segment where
  | static : List Nat → Segment
  | named : List Nat → Segment
  | wildcard : List Nat → Segment
deriving DecidableEq

/-- Modelled from the spec: a `Route` is an ordered sequence of segments. -/
abbrev Route := List Segment

/-- `Scope` from `handler/scope.rs`: an optional base route; the default is
the root mount. -/
structure Scope where
  route : Option Route

/-- `Scope::default`: the root mount with no base route. -/
def Scope.root : Scope := ⟨none⟩

/-- Modelled from the spec: whether a segment is a wildcard. -/
def segIsWildcard : Segment → Bool
  | .wildcard _ => true
  | _ => false

/-- Modelled from the spec: a route is well-formed when a wildcard occurs
only as the final segment. -/
def routeWf : Route → Bool
  | [] => true
  | [_] => true
  | s :: r => !(segIsWildcard s) && routeWf r

/-- Modelled from the spec: a compiled pattern set. -/
structure Matcher where
  routes : List Route

/-- `Matcher::new`: an empty matcher. -/
def Matcher.new : Matcher := ⟨[]⟩

/-- Modelled from the spec: registering a route fails on a non-final
wildcard or on a structural duplicate of an existing pattern. -/
def Matcher.add (m : Matcher) (r : Route) : Except HError Matcher :=
  if !(routeWf r) then .error (.matcher "wildcard must be final")
  else if m.routes.any (fun r0 => r0 = r) then .error (.matcher "ambiguous route")
  else .ok ⟨m.routes ++ [r]⟩

/-- A middleware `Factory` as accumulated by the stack builder: a deferred,
Scope-parameterized, fallible constructor. -/
abbrev Factory := Scope → Except HError MiddlewareFn

/-- `Builder` from `handler/stack/builder.rs`: the accumulated middleware
factories, in registration order. -/
structure Builder where
  middlewares : List Factory

/-- `Builder::new`: no factories. -/
def Builder.new : Builder := ⟨[]⟩

/-- `Builder::push` / `Builder::with`: appending one factory; registration
never fails. -/
def Builder.push (b : Builder) (f : Factory) : Builder :=
  ⟨b.middlewares ++ [f]⟩

/-- `Stack` from the stack module: an ordered owned sequence of middlewares
plus an optional prefix matcher. -/
structure Stack where
  middlewares : List MiddlewareFn
  matcher : Option Matcher

/-- `Iterator::collect::<Result<_>>` as used in `try_into_middleware`: stop
at the first error, otherwise collect all values in order. -/
def collectE : List (Except HError MiddlewareFn) → Except HError (List MiddlewareFn)
  | [] => .ok []
  | x :: xs =>
    match x with
    | .error e => .error e
    | .ok a =>
      match collectE xs with
      | .error e => .error e
      | .ok rest => .ok (a :: rest)

/-- Modelled from the spec: `Route::from_str("/{*rest}")`, the synthetic
wildcard pattern appended to the base route for prefix gating. -/
def restRoute : Route := [Segment.wildcard (strBytes "rest")]

/-- `Builder::try_into_middleware` from `handler/stack/builder.rs`: if the
scope carries a base route, compile the single-pattern prefix matcher from
`base + wildcard`; then run every factory with the scope in registration
order, collecting results fail-fast into a stack. -/
def Builder.tryIntoMiddleware (b : Builder) (scope : Scope) : Except HError Stack :=
  match scope.route with
  | none =>
    match collectE (b.middlewares.map (fun f => f scope)) with
    | .error e => .error e
    | .ok mws => .ok ⟨mws, none⟩
  | some base =>
    match Matcher.new.add (base ++ restRoute) with
    | .error e => .error e
    | .ok mt =>
      match collectE (b.middlewares.map (fun f => f scope)) with
      | .error e => .error e
      | .ok mws => .ok ⟨mws, some mt⟩

/-- `Builder::try_into_handler`: resolution with the default root scope. -/
def Builder.tryIntoHandler (b : Builder) : Except HError Stack :=
  b.tryIntoMiddleware Scope.root

/-- A scope whose base route (if any) admits the appended wildcard, so the
prefix matcher compiles; the root scope trivially qualifies. -/
def scopeOk (scope : Scope) : Prop :=
  ∀ base, scope.route = some base → routeWf (base ++ restRoute) = true

end Zense

namespace Zense

theorem uf_nil : utf8Fix [] = [] := rfl

theorem vu_nil : validUtf8 [] = true := rfl

theorem uf_ascii {b : Nat} {r : List Nat} (hb : b < 0x80) :
    utf8Fix (b :: r) = b :: utf8Fix r := by
  rw [utf8Fix.eq_def]; simp [hb]

theorem vu_ascii {b : Nat} {r : List Nat} (hb : b < 0x80) :
    validUtf8 (b :: r) = validUtf8 r := by
  rw [validUtf8.eq_def]; simp [hb]

theorem uf_one {b : Nat} (hb : ¬ b < 0x80) : utf8Fix [b] = repl := by
  rw [utf8Fix.eq_def]; simp only [if_neg hb]; split_ifs <;> simp [uf_nil]

theorem vu_one {b : Nat} (hb : ¬ b < 0x80) : validUtf8 [b] = false := by
  rw [validUtf8.eq_def]; simp only [if_neg hb]; split_ifs <;> simp

theorem uf_two_ok {b c : Nat} {r : List Nat} (hb : ¬ b < 0x80)
    (h2 : utf8SeqLen b = 2) (hc : isCont c = true) :
    utf8Fix (b :: c :: r) = b :: c :: utf8Fix r := by
  rw [utf8Fix.eq_def]; simp [hb, h2, hc]

theorem uf_two_bad {b c : Nat} {r : List Nat} (hb : ¬ b < 0x80)
    (h2 : utf8SeqLen b = 2) (hc : isCont c = false) :
    utf8Fix (b :: c :: r) = repl ++ utf8Fix (c :: r) := by
  rw [utf8Fix.eq_def]; simp [hb, h2, hc]

theorem vu_two {b c : Nat} {r : List Nat} (hb : ¬ b < 0x80)
    (h2 : utf8SeqLen b = 2) :
    validUtf8 (b :: c :: r) = (isCont c && validUtf8 r) := by
  rw [validUtf8.eq_def]; simp [hb, h2]

theorem uf_three_two {b c : Nat} (hb : ¬ b < 0x80) (h3 : utf8SeqLen b = 3)
    (hcc : cont2Ok b c = true) : utf8Fix [b, c] = repl := by
  rw [utf8Fix.eq_def]; simp [hb, h3, hcc]

theorem uf_three_ok {b c d : Nat} {r : List Nat} (hb : ¬ b < 0x80)
    (h3 : utf8SeqLen b = 3) (hcc : cont2Ok b c = true) (hd : isCont d = true) :
    utf8Fix (b :: c :: d :: r) = b :: c :: d :: utf8Fix r := by
  rw [utf8Fix.eq_def]; simp [hb, h3, hcc, hd]

theorem uf_three_bad3 {b c d : Nat} {r : List Nat} (hb : ¬ b < 0x80)
    (h3 : utf8SeqLen b = 3) (hcc : cont2Ok b c = true) (hd : isCont d = false) :
    utf8Fix (b :: c :: d :: r) = repl ++ utf8Fix (d :: r) := by
  rw [utf8Fix.eq_def]; simp [hb, h3, hcc, hd]

theorem uf_three_bad2 {b c : Nat} {r : List Nat} (hb : ¬ b < 0x80)
    (h3 : utf8SeqLen b = 3) (hcc : cont2Ok b c = false) :
    utf8Fix (b :: c :: r) = repl ++ utf8Fix (c :: r) := by
  rw [utf8Fix.eq_def]; simp [hb, h3, hcc]

theorem vu_three_two {b c : Nat} (hb : ¬ b < 0x80) (h3 : utf8SeqLen b = 3)
    (hcc : cont2Ok b c = true) : validUtf8 [b, c] = false := by
  rw [validUtf8.eq_def]; simp [hb, h3, hcc]

theorem vu_three_ok {b c d : Nat} {r : List Nat} (hb : ¬ b < 0x80)
    (h3 : utf8SeqLen b = 3) (hcc : cont2Ok b c = true) :
    validUtf8 (b :: c :: d :: r) = (isCont d && validUtf8 r) := by
  rw [validUtf8.eq_def]; simp [hb, h3, hcc]

theorem vu_three_bad2 {b c : Nat} {r : List Nat} (hb : ¬ b < 0x80)
    (h3 : utf8SeqLen b = 3) (hcc : cont2Ok b c = false) :
    validUtf8 (b :: c :: r) = false := by
  rw [validUtf8.eq_def]; simp [hb, h3, hcc]

theorem uf_four_two {b c : Nat} (hb : ¬ b < 0x80) (h4 : utf8SeqLen b = 4)
    (hcc : cont2Ok b c = true) : utf8Fix [b, c] = repl := by
  rw [utf8Fix.eq_def]; simp [hb, h4, hcc]

theorem uf_four_three {b c d : Nat} (hb : ¬ b < 0x80) (h4 : utf8SeqLen b = 4)
    (hcc : cont2Ok b c = true) (hd : isCont d = true) :
    utf8Fix [b, c, d] = repl := by
  rw [utf8Fix.eq_def]; simp [hb, h4, hcc, hd]

theorem uf_four_ok {b c d e : Nat} {r : List Nat} (hb : ¬ b < 0x80)
    (h4 : utf8SeqLen b = 4) (hcc : cont2Ok b c = true) (hd : isCont d = true)
    (he : isCont e = true) :
    utf8Fix (b :: c :: d :: e :: r) = b :: c :: d :: e :: utf8Fix r := by
  rw [utf8Fix.eq_def]; simp [hb, h4, hcc, hd, he]

theorem uf_four_bad4 {b c d e : Nat} {r : List Nat} (hb : ¬ b < 0x80)
    (h4 : utf8SeqLen b = 4) (hcc : cont2Ok b c = true) (hd : isCont d = true)
    (he : isCont e = false) :
    utf8Fix (b :: c :: d :: e :: r) = repl ++ utf8Fix (e :: r) := by
  rw [utf8Fix.eq_def]; simp [hb, h4, hcc, hd, he]

theorem uf_four_bad3 {b c d : Nat} {r : List Nat} (hb : ¬ b < 0x80)
    (h4 : utf8SeqLen b = 4) (hcc : cont2Ok b c = true) (hd : isCont d = false) :
    utf8Fix (b :: c :: d :: r) = repl ++ utf8Fix (d :: r) := by
  rw [utf8Fix.eq_def]; simp [hb, h4, hcc, hd]

theorem uf_four_bad2 {b c : Nat} {r : List Nat} (hb : ¬ b < 0x80)
    (h4 : utf8SeqLen b = 4) (hcc : cont2Ok b c = false) :
    utf8Fix (b :: c :: r) = repl ++ utf8Fix (c :: r) := by
  rw [utf8Fix.eq_def]; simp [hb, h4, hcc]

theorem vu_four_two {b c : Nat} (hb : ¬ b < 0x80) (h4 : utf8SeqLen b = 4)
    (hcc : cont2Ok b c = true) : validUtf8 [b, c] = false := by
  rw [validUtf8.eq_def]; simp [hb, h4, hcc]

theorem vu_four_three {b c d : Nat} (hb : ¬ b < 0x80) (h4 : utf8SeqLen b = 4)
    (hcc : cont2Ok b c = true) (hd : isCont d = true) :
    validUtf8 [b, c, d] = false := by
  rw [validUtf8.eq_def]; simp [hb, h4, hcc, hd]

theorem vu_four_ok {b c d e : Nat} {r : List Nat} (hb : ¬ b < 0x80)
    (h4 : utf8SeqLen b = 4) (hcc : cont2Ok b c = true) (hd : isCont d = true) :
    validUtf8 (b :: c :: d :: e :: r) = (isCont e && validUtf8 r) := by
  rw [validUtf8.eq_def]; simp [hb, h4, hcc, hd]

theorem vu_four_bad3 {b c d : Nat} {r : List Nat} (hb : ¬ b < 0x80)
    (h4 : utf8SeqLen b = 4) (hcc : cont2Ok b c = true) (hd : isCont d = false) :
    validUtf8 (b :: c :: d :: r) = false := by
  rw [validUtf8.eq_def]; simp [hb, h4, hcc, hd]

theorem vu_four_bad2 {b c : Nat} {r : List Nat} (hb : ¬ b < 0x80)
    (h4 : utf8SeqLen b = 4) (hcc : cont2Ok b c = false) :
    validUtf8 (b :: c :: r) = false := by
  rw [validUtf8.eq_def]; simp [hb, h4, hcc]

theorem uf_junk {b : Nat} {r : List Nat} (hb : ¬ b < 0x80)
    (h2 : ¬ utf8SeqLen b = 2) (h3 : ¬ utf8SeqLen b = 3) (h4 : ¬ utf8SeqLen b = 4) :
    utf8Fix (b :: r) = repl ++ utf8Fix r := by
  rw [utf8Fix.eq_def]; simp [hb, h2, h3, h4]

theorem vu_junk {b : Nat} {r : List Nat} (hb : ¬ b < 0x80)
    (h2 : ¬ utf8SeqLen b = 2) (h3 : ¬ utf8SeqLen b = 3) (h4 : ¬ utf8SeqLen b = 4) :
    validUtf8 (b :: r) = false := by
  rw [validUtf8.eq_def]; simp [hb, h2, h3, h4]

theorem vu_repl_append (x : List Nat) : validUtf8 (repl ++ x) = validUtf8 x := by
  show validUtf8 (0xEF :: 0xBF :: 0xBD :: x) = validUtf8 x
  rw [validUtf8.eq_def]
  norm_num [utf8SeqLen, cont2Ok, contLo, contHi, isCont]

theorem utf8Fix_of_valid : ∀ l : List Nat, validUtf8 l = true → utf8Fix l = l := by
  intro l h
  induction l using utf8Fix.induct with
  | case1 => rfl
  | case2 b r hb ih =>
    rw [vu_ascii hb] at h
    rw [uf_ascii hb, ih h]
  | case3 b hb h2 =>
    rw [vu_one hb] at h; simp at h
  | case4 b hb h2 c r hc ih =>
    rw [vu_two hb h2, hc, Bool.true_and] at h
    rw [uf_two_ok hb h2 hc, ih h]
  | case5 b hb h2 c r hc ih =>
    rw [Bool.not_eq_true] at hc
    rw [vu_two hb h2, hc, Bool.false_and] at h; simp at h
  | case6 b hb h2 h3 =>
    rw [vu_one hb] at h; simp at h
  | case7 b hb h2 h3 c hcc =>
    rw [vu_three_two hb h3 hcc] at h; simp at h
  | case8 b hb h2 h3 c hcc d r hd ih =>
    rw [vu_three_ok hb h3 hcc, hd, Bool.true_and] at h
    rw [uf_three_ok hb h3 hcc hd, ih h]
  | case9 b hb h2 h3 c hcc d r hd ih =>
    rw [Bool.not_eq_true] at hd
    rw [vu_three_ok hb h3 hcc, hd, Bool.false_and] at h; simp at h
  | case10 b hb h2 h3 c r hcc ih =>
    rw [Bool.not_eq_true] at hcc
    rw [vu_three_bad2 hb h3 hcc] at h; simp at h
  | case11 b hb h2 h3 h4 =>
    rw [vu_one hb] at h; simp at h
  | case12 b hb h2 h3 h4 c hcc =>
    rw [vu_four_two hb h4 hcc] at h; simp at h
  | case13 b hb h2 h3 h4 c hcc d hd =>
    rw [vu_four_three hb h4 hcc hd] at h; simp at h
  | case14 b hb h2 h3 h4 c hcc d hd e r he ih =>
    rw [vu_four_ok hb h4 hcc hd, he, Bool.true_and] at h
    rw [uf_four_ok hb h4 hcc hd he, ih h]
  | case15 b hb h2 h3 h4 c hcc d hd e r he ih =>
    rw [Bool.not_eq_true] at he
    rw [vu_four_ok hb h4 hcc hd, he, Bool.false_and] at h; simp at h
  | case16 b hb h2 h3 h4 c hcc d r hd ih =>
    rw [Bool.not_eq_true] at hd
    rw [vu_four_bad3 hb h4 hcc hd] at h; simp at h
  | case17 b hb h2 h3 h4 c r hcc ih =>
    rw [Bool.not_eq_true] at hcc
    rw [vu_four_bad2 hb h4 hcc] at h; simp at h
  | case18 b r hb h2 h3 h4 ih =>
    rw [vu_junk hb h2 h3 h4] at h; simp at h

theorem validUtf8_utf8Fix : ∀ l : List Nat, validUtf8 (utf8Fix l) = true := by
  intro l
  induction l using utf8Fix.induct with
  | case1 => rfl
  | case2 b r hb ih =>
    rw [uf_ascii hb, vu_ascii hb]; exact ih
  | case3 b hb h2 =>
    rw [uf_one hb]; decide
  | case4 b hb h2 c r hc ih =>
    rw [uf_two_ok hb h2 hc, vu_two hb h2, hc, Bool.true_and]; exact ih
  | case5 b hb h2 c r hc ih =>
    rw [Bool.not_eq_true] at hc
    rw [uf_two_bad hb h2 hc, vu_repl_append]; exact ih
  | case6 b hb h2 h3 =>
    rw [uf_one hb]; decide
  | case7 b hb h2 h3 c hcc =>
    rw [uf_three_two hb h3 hcc]; decide
  | case8 b hb h2 h3 c hcc d r hd ih =>
    rw [uf_three_ok hb h3 hcc hd, vu_three_ok hb h3 hcc, hd, Bool.true_and]
    exact ih
  | case9 b hb h2 h3 c hcc d r hd ih =>
    rw [Bool.not_eq_true] at hd
    rw [uf_three_bad3 hb h3 hcc hd, vu_repl_append]; exact ih
  | case10 b hb h2 h3 c r hcc ih =>
    rw [Bool.not_eq_true] at hcc
    rw [uf_three_bad2 hb h3 hcc, vu_repl_append]; exact ih
  | case11 b hb h2 h3 h4 =>
    rw [uf_one hb]; decide
  | case12 b hb h2 h3 h4 c hcc =>
    rw [uf_four_two hb h4 hcc]; decide
  | case13 b hb h2 h3 h4 c hcc d hd =>
    rw [uf_four_three hb h4 hcc hd]; decide
  | case14 b hb h2 h3 h4 c hcc d hd e r he ih =>
    rw [uf_four_ok hb h4 hcc hd he, vu_four_ok hb h4 hcc hd, he, Bool.true_and]
    exact ih
  | case15 b hb h2 h3 h4 c hcc d hd e r he ih =>
    rw [Bool.not_eq_true] at he
    rw [uf_four_bad4 hb h4 hcc hd he, vu_repl_append]; exact ih
  | case16 b hb h2 h3 h4 c hcc d r hd ih =>
    rw [Bool.not_eq_true] at hd
    rw [uf_four_bad3 hb h4 hcc hd, vu_repl_append]; exact ih
  | case17 b hb h2 h3 h4 c r hcc ih =>
    rw [Bool.not_eq_true] at hcc
    rw [uf_four_bad2 hb h4 hcc, vu_repl_append]; exact ih
  | case18 b r hb h2 h3 h4 ih =>
    rw [uf_junk hb h2 h3 h4, vu_repl_append]; exact ih

theorem utf8SeqLen_bound {b : Nat} {n : Nat} (h : utf8SeqLen b = n) (hn : n ≠ 0) :
    b < 256 := by
  unfold utf8SeqLen at h
  split_ifs at h <;> simp_all <;> omega

theorem isCont_bound {c : Nat} (h : isCont c = true) : c < 256 := by
  simp [isCont] at h; omega

theorem cont2Ok_bound {b c : Nat} (h : cont2Ok b c = true) : c < 256 := by
  simp [cont2Ok] at h
  have : contHi b ≤ 0xBF := by unfold contHi; split_ifs <;> omega
  omega

theorem validUtf8_bound : ∀ l : List Nat, validUtf8 l = true → ∀ x ∈ l, x < 256 := by
  intro l h
  induction l using utf8Fix.induct with
  | case1 => intro x hx; simp at hx
  | case2 b r hb ih =>
    rw [vu_ascii hb] at h
    intro x hx
    rcases List.mem_cons.mp hx with rfl | hx
    · omega
    · exact ih h x hx
  | case3 b hb h2 => rw [vu_one hb] at h; simp at h
  | case4 b hb h2 c r hc ih =>
    rw [vu_two hb h2, hc, Bool.true_and] at h
    intro x hx
    rcases List.mem_cons.mp hx with rfl | hx
    · exact utf8SeqLen_bound h2 (by omega)
    rcases List.mem_cons.mp hx with rfl | hx
    · exact isCont_bound hc
    · exact ih h x hx
  | case5 b hb h2 c r hc ih =>
    rw [Bool.not_eq_true] at hc
    rw [vu_two hb h2, hc, Bool.false_and] at h; simp at h
  | case6 b hb h2 h3 => rw [vu_one hb] at h; simp at h
  | case7 b hb h2 h3 c hcc => rw [vu_three_two hb h3 hcc] at h; simp at h
  | case8 b hb h2 h3 c hcc d r hd ih =>
    rw [vu_three_ok hb h3 hcc, hd, Bool.true_and] at h
    intro x hx
    rcases List.mem_cons.mp hx with rfl | hx
    · exact utf8SeqLen_bound h3 (by omega)
    rcases List.mem_cons.mp hx with rfl | hx
    · exact cont2Ok_bound hcc
    rcases List.mem_cons.mp hx with rfl | hx
    · exact isCont_bound hd
    · exact ih h x hx
  | case9 b hb h2 h3 c hcc d r hd ih =>
    rw [Bool.not_eq_true] at hd
    rw [vu_three_ok hb h3 hcc, hd, Bool.false_and] at h; simp at h
  | case10 b hb h2 h3 c r hcc ih =>
    rw [Bool.not_eq_true] at hcc
    rw [vu_three_bad2 hb h3 hcc] at h; simp at h
  | case11 b hb h2 h3 h4 => rw [vu_one hb] at h; simp at h
  | case12 b hb h2 h3 h4 c hcc => rw [vu_four_two hb h4 hcc] at h; simp at h
  | case13 b hb h2 h3 h4 c hcc d hd =>
    rw [vu_four_three hb h4 hcc hd] at h; simp at h
  | case14 b hb h2 h3 h4 c hcc d hd e r he ih =>
    rw [vu_four_ok hb h4 hcc hd, he, Bool.true_and] at h
    intro x hx
    rcases List.mem_cons.mp hx with rfl | hx
    · exact utf8SeqLen_bound h4 (by omega)
    rcases List.mem_cons.mp hx with rfl | hx
    · exact cont2Ok_bound hcc
    rcases List.mem_cons.mp hx with rfl | hx
    · exact isCont_bound hd
    rcases List.mem_cons.mp hx with rfl | hx
    · exact isCont_bound he
    · exact ih h x hx
  | case15 b hb h2 h3 h4 c hcc d hd e r he ih =>
    rw [Bool.not_eq_true] at he
    rw [vu_four_ok hb h4 hcc hd, he, Bool.false_and] at h; simp at h
  | case16 b hb h2 h3 h4 c hcc d r hd ih =>
    rw [Bool.not_eq_true] at hd
    rw [vu_four_bad3 hb h4 hcc hd] at h; simp at h
  | case17 b hb h2 h3 h4 c r hcc ih =>
    rw [Bool.not_eq_true] at hcc
    rw [vu_four_bad2 hb h4 hcc] at h; simp at h
  | case18 b r hb h2 h3 h4 ih =>
    rw [vu_junk hb h2 h3 h4] at h; simp at h

theorem hexDigit_isHex (n : Nat) (h : n < 16) : isHex (hexDigit n) = true := by
  unfold isHex hexDigit
  split <;> simp <;> omega

theorem hexVal_hexDigit (n : Nat) (h : n < 16) : hexVal (hexDigit n) = n := by
  unfold hexVal hexDigit
  split_ifs <;> omega

theorem percentDecode_cons_ne (b : Nat) (r : List Nat) (hb : b ≠ 0x25) :
    percentDecode (b :: r) = b :: percentDecode r := by
  rw [percentDecode.eq_def]
  simp [hb]

theorem percentDecode_encode (set : Nat → Bool) (hset : set 0x25 = true) :
    ∀ s : List Nat, (∀ b ∈ s, b < 256) → percentDecode (percentEncode set s) = s := by
  intro s
  induction s with
  | nil => intro _; simp [percentEncode, percentDecode]
  | cons b r ih =>
    intro hb
    have hblt : b < 256 := hb b (by simp)
    have hr : ∀ x ∈ r, x < 256 := fun x hx => hb x (by simp [hx])
    by_cases he : shouldEncode set b = true
    · have h1 : b / 16 < 16 := by omega
      have h2 : b % 16 < 16 := by omega
      rw [show percentEncode set (b :: r) =
          0x25 :: hexDigit (b / 16) :: hexDigit (b % 16) :: percentEncode set r from by
        simp [percentEncode, he]]
      simp only [percentDecode, if_pos rfl, hexDigit_isHex _ h1, hexDigit_isHex _ h2,
        Bool.and_self, if_true, hexVal_hexDigit _ h1, hexVal_hexDigit _ h2, ih hr]
      have hdm : b / 16 * 16 + b % 16 = b := by omega
      rw [hdm]
    · have hne : b ≠ 0x25 := by
        intro hcontra
        apply he
        simp [shouldEncode, hcontra, hset]
      rw [show percentEncode set (b :: r) = b :: percentEncode set r from by
        simp [percentEncode, he]]
      rw [percentDecode_cons_ne b _ hne, ih hr]


/-- Claim C4: for every string free of null bytes, `decode (encode s Path)`
reproduces `s`; decode is total on arbitrary strings, never failing on
invalid percent-sequences, and replaces invalid byte sequences with the
Unicode replacement character (its output is always valid UTF-8, and the
invalid sequence `%FF` decodes to U+FFFD). -/
theorem c4_decode_encode_path :
    (∀ s : List Nat, validUtf8 s = true → (0 : Nat) ∉ s →
      decode (encode s Kind.path) = s)
    ∧ (∀ s : List Nat, validUtf8 (decode s) = true)
    ∧ decode (strBytes "%FF") = repl := by
  refine ⟨?_, ?_, ?_⟩
  · intro s hv _
    show utf8Fix (percentDecode (percentEncode uriPathSet s)) = s
    rw [percentDecode_encode uriPathSet (by decide) s (validUtf8_bound s hv)]
    exact utf8Fix_of_valid s hv
  · intro s
    exact validUtf8_utf8Fix _
  · have h1 : strBytes "%FF" = [37, 70, 70] := by decide
    rw [h1]
    show utf8Fix (percentDecode [37, 70, 70]) = repl
    have h2 : percentDecode [37, 70, 70] = [255] := by
      simp [percentDecode, isHex, hexVal]
    rw [h2]
    decide

theorem c4_decode_encode_path_witness :
    decode (encode (strBytes "a b") Kind.path) = strBytes "a b"
    ∧ validUtf8 (decode [37, 70, 70]) = true := by
  constructor
  · exact c4_decode_encode_path.1 (strBytes "a b") (by decide) (by decide)
  · exact c4_decode_encode_path.2.1 [37, 70, 70]

/-- Claim C5 counterexample: the claim says a character is escaped under
query-encoding exactly when it is escaped under path-encoding and is not
the question mark.  The tilde (0x7E) is escaped under path-encoding, is
not the question mark, yet is not escaped under query-encoding. -/
theorem c5_query_minus_cex :
    shouldEncode uriPathSet 0x7E = true
    ∧ shouldEncode uriQuerySet 0x7E = false
    ∧ encode [0x7E] Kind.path = [0x25, 0x37, 0x45]
    ∧ encode [0x7E] Kind.query = [0x7E]
    ∧ ¬ (shouldEncode uriQuerySet 0x7E
          = (shouldEncode uriPathSet 0x7E && !((0x7E : Nat) == 0x3F))) := by
  decide

set_option maxRecDepth 4096 in
/-- Claim C5 amended: a character is escaped under query-encoding if and
only if it is escaped under path-encoding and is neither the question mark
(0x3F) nor the tilde (0x7E). -/
theorem c5_query_minus :
    ∀ b : Nat, shouldEncode uriQuerySet b
      = (shouldEncode uriPathSet b && !(b == 0x3F) && !(b == 0x7E)) := by
  intro b
  by_cases hb : b < 256
  · exact (by decide : ∀ x, x < 256 → shouldEncode uriQuerySet x
      = (shouldEncode uriPathSet x && !(x == 0x3F) && !(x == 0x7E))) b hb
  · have h1 : b ≠ 0x3F := by omega
    have h2 : b ≠ 0x7E := by omega
    have h3 : ¬ b < 0x80 := by omega
    simp [shouldEncode, h3, h1, h2]

theorem scanRest_all (allowed : Nat → Bool) (stop : Nat) (hstop : allowed stop = false) :
    ∀ t : List Nat, (∀ b ∈ t, allowed b = true) → scanRest allowed stop t = .more := by
  intro t
  induction t with
  | nil => intro _; rfl
  | cons b t ih =>
    intro hT
    have hb : allowed b = true := hT b (by simp)
    have hne : b ≠ stop := by
      intro hcontra
      rw [hcontra, hstop] at hb
      cases hb
    rw [scanRest.eq_def]
    simp [hne, hb, ih (fun x hx => hT x (by simp [hx]))]

theorem scanRest_ok (allowed : Nat → Bool) (stop : Nat) (hstop : allowed stop = false) :
    ∀ (t rest : List Nat), (∀ b ∈ t, allowed b = true) →
      scanRest allowed stop (t ++ stop :: rest) = .done (t, rest) := by
  intro t
  induction t with
  | nil =>
    intro rest _
    rw [scanRest.eq_def]
    simp
  | cons b t ih =>
    intro rest hT
    have hb : allowed b = true := hT b (by simp)
    have hne : b ≠ stop := by
      intro hcontra
      rw [hcontra, hstop] at hb
      cases hb
    rw [scanRest.eq_def]
    simp [hne, hb, ih rest (fun x hx => hT x (by simp [hx]))]

theorem scanToken_more (allowed : Nat → Bool) (stop : Nat) (hstop : allowed stop = false)
    (t : List Nat) (hT : ∀ b ∈ t, allowed b = true) :
    scanToken allowed stop t = .more := by
  cases t with
  | nil => rfl
  | cons b t =>
    have hb : allowed b = true := hT b (by simp)
    rw [scanToken.eq_def]
    simp [hb, scanRest_all allowed stop hstop t (fun x hx => hT x (by simp [hx]))]

theorem scanToken_ok (allowed : Nat → Bool) (stop : Nat) (hstop : allowed stop = false)
    (t rest : List Nat) (ht : t ≠ []) (hT : ∀ b ∈ t, allowed b = true) :
    scanToken allowed stop (t ++ stop :: rest) = .done (t, rest) := by
  cases t with
  | nil => exact absurd rfl ht
  | cons b t =>
    have hb : allowed b = true := hT b (by simp)
    rw [scanToken.eq_def]
    simp [hb, scanRest_ok allowed stop hstop t rest (fun x hx => hT x (by simp [hx]))]

theorem expectLit_append : ∀ lit rest : List Nat, expectLit lit (lit ++ rest) = .done rest := by
  intro lit
  induction lit with
  | nil => intro rest; rfl
  | cons l ls ih =>
    intro rest
    rw [expectLit.eq_def]
    simp [ih rest]

theorem expectLit_take : ∀ (lit : List Nat) (k : Nat), k < lit.length →
    expectLit lit (lit.take k) = .more := by
  intro lit
  induction lit with
  | nil => intro k hk; simp at hk
  | cons l ls ih =>
    intro k hk
    cases k with
    | zero => rfl
    | succ j =>
      rw [List.take_succ_cons, expectLit.eq_def]
      simp [ih j (by simpa using hk)]

theorem scanValue_ok (v rest : List Nat) (hv : ∀ b ∈ v, isValChar b = true) :
    scanValue (v ++ 13 :: 10 :: rest) = .done (v, rest) := by
  induction v with
  | nil =>
    rw [scanValue.eq_def]
    simp
  | cons b v ih =>
    have hb : isValChar b = true := hv b (by simp)
    have hne : b ≠ 13 := by
      intro hcontra
      rw [hcontra] at hb
      simp [isValChar] at hb
    rw [scanValue.eq_def]
    simp [hne, hb, ih (fun x hx => hv x (by simp [hx]))]

theorem parseHeader_build (nm v rest : List Nat) (hne : nm ≠ [])
    (hnT : ∀ b ∈ nm, isTok b = true) (hvT : ∀ b ∈ v, isValChar b = true)
    (hv0 : v.head? ≠ some 32) :
    parseHeader (nm ++ 58 :: 32 :: (v ++ 13 :: 10 :: rest)) = .done ((nm, v), rest) := by
  have hdrop : (32 :: (v ++ 13 :: 10 :: rest)).dropWhile (fun b => b == 32)
      = v ++ 13 :: 10 :: rest := by
    cases v with
    | nil => simp [List.dropWhile]
    | cons a v2 =>
      have ha : (a == 32) = false := by
        refine beq_eq_false_iff_ne.mpr ?_
        intro hcontra
        apply hv0
        simp [hcontra]
      simp [List.dropWhile, ha]
  unfold parseHeader
  rw [scanToken_ok isTok 58 (by decide) nm _ hne hnT]
  simp only [hdrop, scanValue_ok v rest hvT]

theorem parseHeaders_step (n : Nat) (h : List Nat × List Nat) (X : List Nat)
    (hw : wfHeader h) :
    parseHeaders (n + 1) (headerLine h ++ X)
      = match parseHeaders n X with
        | .more => .more
        | .bad => .bad
        | .done (hh, body) => .done (h :: hh, body) := by
  obtain ⟨h1, h2⟩ := h
  obtain ⟨hne, hnT, hvT, hv0⟩ := hw
  obtain ⟨a, n2, rfl⟩ : ∃ a n2, h1 = a :: n2 := by
    cases hh : h1 with
    | nil => exact absurd hh hne
    | cons a n2 => exact ⟨a, n2, rfl⟩
  have ha : isTok a = true := hnT a (by simp)
  have ha13 : a ≠ 13 := by
    intro hcontra
    rw [hcontra] at ha
    simp [isTok] at ha
  have hcons : headerLine (a :: n2, h2) ++ X
      = a :: (n2 ++ 58 :: 32 :: (h2 ++ 13 :: 10 :: X)) := by
    simp [headerLine]
  have hph : parseHeader (a :: (n2 ++ 58 :: 32 :: (h2 ++ 13 :: 10 :: X)))
      = .done ((a :: n2, h2), X) := by
    have hb := parseHeader_build (a :: n2) h2 X hne hnT hvT hv0
    simpa using hb
  rw [hcons, parseHeaders.eq_def]
  simp only [if_neg ha13, hph]
  cases hX : parseHeaders n X with
  | more => simp [prBind, hX]
  | bad => simp [prBind, hX]
  | done a => simp [prBind, hX]

theorem parseHeaders_build : ∀ (hs : List (List Nat × List Nat)) (n : Nat) (rest : List Nat),
    (∀ h ∈ hs, wfHeader h) → hs.length ≤ n →
    parseHeaders n ((hs.map headerLine).flatten ++ 13 :: 10 :: rest) = .done (hs, rest) := by
  intro hs
  induction hs with
  | nil =>
    intro n rest _ _
    rw [parseHeaders.eq_def]
    simp [crlfEnd]
  | cons h hs ih =>
    intro n rest hw hn
    cases n with
    | zero => simp at hn
    | succ m =>
      have hflat : ((h :: hs).map headerLine).flatten ++ 13 :: 10 :: rest
          = headerLine h ++ ((hs.map headerLine).flatten ++ 13 :: 10 :: rest) := by
        simp
      rw [hflat, parseHeaders_step m h _ (hw h (by simp)),
        ih m rest (fun x hx => hw x (by simp [hx])) (by simpa using hn)]

theorem parseRequest_build (m p : List Nat) (hs : List (List Nat × List Nat))
    (body : List Nat) (hm1 : m ≠ []) (hm2 : ∀ b ∈ m, isTok b = true)
    (hp1 : p ≠ []) (hp2 : ∀ b ∈ p, isUriChar b = true)
    (hh : ∀ h ∈ hs, wfHeader h) (hn : hs.length ≤ 64) :
    parseRequest (buildRequest m p hs body) = .done (m, p, hs, body) := by
  unfold parseRequest buildRequest
  rw [scanToken_ok isTok 32 (by decide) m _ hm1 hm2]
  simp only []
  rw [scanToken_ok isUriChar 32 (by decide) p _ hp1 hp2]
  simp only []
  rw [expectLit_append versionBytes _]
  simp only []
  rw [parseHeaders_build hs 64 body hh hn]

theorem uriOfRaw_no_query (p : List Nat) (hq : (63 : Nat) ∉ p) :
    Uri.ofRaw p = { path := p, query := none } := by
  unfold Uri.ofRaw
  have h1 : p.takeWhile (fun b => !(b == 63)) = p := by
    induction p with
    | nil => rfl
    | cons a r ih =>
      have ha : (a == 63) = false := by
        refine beq_eq_false_iff_ne.mpr ?_
        intro hcontra
        exact hq (by simp [hcontra])
      simp [List.takeWhile, ha, ih (fun hc => hq (by simp [hc]))]
  have h2 : p.any (fun b => b == 63) = false := by
    by_contra hcon
    rw [Bool.not_eq_false, List.any_eq_true] at hcon
    obtain ⟨x, hx, hx63⟩ := hcon
    rw [beq_iff_eq] at hx63
    exact hq (hx63 ▸ hx)
  rw [h1, h2]
  rfl

theorem fromBytes_build_ok (P : List Nat) (hs : List (List Nat × List Nat))
    (body : List Nat)
    (hP1 : P ≠ []) (hP2 : ∀ b ∈ P, isUriChar b = true)
    (hq : (63 : Nat) ∉ P) (hdd : hasDotDot P = false)
    (hlen : P.length ≤ 4096)
    (hh : ∀ h ∈ hs, wfHeader h) (hn : hs.length ≤ 64) :
    Request.fromBytes (buildRequest (strBytes "GET") P hs body)
      = .ok { method := .get, uri := { path := P, query := none },
              headers := hs.filterMap (fun h =>
                if validUtf8 h.2 then
                  (headerFromBytes h.1).map (fun name => (name, h.2))
                else none),
              body := body } := by
  have hparse := parseRequest_build (strBytes "GET") P hs body
    (by decide) (by decide) hP1 hP2 hh hn
  unfold Request.fromBytes
  rw [hparse]
  simp only []
  rw [show methodFromBytes (strBytes "GET") = some Method.get from by decide]
  simp only [uriOfRaw_no_query P hq]
  rw [if_neg (by simp; omega), if_neg (by simp [hdd])]

/-- Claim C2: for every path string of at most 4096 bytes that contains
neither `..` nor a query delimiter, parsing a well-formed HTTP/1.1 request
line carrying that path succeeds, and the parsed request's `uri.path` is
exactly that path. -/
theorem c2_path_roundtrip (P : List Nat)
    (hP1 : P ≠ []) (hP2 : ∀ b ∈ P, isUriChar b = true)
    (hq : (63 : Nat) ∉ P) (hdd : hasDotDot P = false)
    (hlen : P.length ≤ 4096) :
    ∃ req : Request,
      Request.fromBytes (buildRequest (strBytes "GET") P [] []) = .ok req
        ∧ req.uri.path = P := by
  refine ⟨_, fromBytes_build_ok P [] [] hP1 hP2 hq hdd hlen (by simp) (by simp), rfl⟩

theorem c2_path_roundtrip_witness :
    ∃ req : Request,
      Request.fromBytes (buildRequest (strBytes "GET") (strBytes "/coffee") [] [])
        = .ok req ∧ req.uri.path = strBytes "/coffee" := by
  exact c2_path_roundtrip (strBytes "/coffee") (by decide) (by decide) (by decide)
    (by decide) (by decide)

/-- Claim C7: in a request whose request line and header section are
well-formed, headers with unrecognized names or non-UTF-8 values are
silently omitted from the parsed request's headers and never cause
`Request::from_bytes` to fail: exactly the recognized headers with valid
UTF-8 values are kept. -/
theorem c7_lenient_headers (P : List Nat) (hs : List (List Nat × List Nat))
    (body : List Nat)
    (hP1 : P ≠ []) (hP2 : ∀ b ∈ P, isUriChar b = true)
    (hq : (63 : Nat) ∉ P) (hdd : hasDotDot P = false)
    (hlen : P.length ≤ 4096)
    (hh : ∀ h ∈ hs, wfHeader h) (hn : hs.length ≤ 64) :
    ∃ req : Request,
      Request.fromBytes (buildRequest (strBytes "GET") P hs body) = .ok req
        ∧ req.headers = hs.filterMap (fun h =>
            if validUtf8 h.2 then
              (headerFromBytes h.1).map (fun name => (name, h.2))
            else none) :=
  ⟨_, fromBytes_build_ok P hs body hP1 hP2 hq hdd hlen hh hn, rfl⟩

theorem c7_lenient_headers_witness :
    ∃ req : Request,
      Request.fromBytes (buildRequest (strBytes "GET") (strBytes "/")
          [(strBytes "Host", strBytes "zense"),
           (strBytes "X-Custom", strBytes "1"),
           (strBytes "Accept", [255])] []) = .ok req
        ∧ req.headers = [(Header.host, strBytes "zense")] := by
  obtain ⟨req, hok, hhd⟩ := c7_lenient_headers (strBytes "/")
    [(strBytes "Host", strBytes "zense"),
     (strBytes "X-Custom", strBytes "1"),
     (strBytes "Accept", [255])] []
    (by decide) (by decide) (by decide) (by decide) (by decide) (by decide) (by decide)
  refine ⟨req, hok, ?_⟩
  rw [hhd]
  decide

theorem parseHeaders_zero (h : List Nat × List Nat) (X : List Nat) (hw : wfHeader h) :
    parseHeaders 0 (headerLine h ++ X) = .bad := by
  obtain ⟨h1, h2⟩ := h
  obtain ⟨hne, hnT, hvT, hv0⟩ := hw
  obtain ⟨a, n2, rfl⟩ : ∃ a n2, h1 = a :: n2 := by
    cases hh : h1 with
    | nil => exact absurd hh hne
    | cons a n2 => exact ⟨a, n2, rfl⟩
  have ha : isTok a = true := hnT a (by simp)
  have ha13 : a ≠ 13 := by
    intro hcontra
    rw [hcontra] at ha
    simp [isTok] at ha
  have hcons : headerLine (a :: n2, h2) ++ X
      = a :: (n2 ++ 58 :: 32 :: (h2 ++ 13 :: 10 :: X)) := by
    simp [headerLine]
  rw [hcons, parseHeaders.eq_def]
  simp [ha13]

theorem parseHeaders_overflow : ∀ (hs : List (List Nat × List Nat)) (n : Nat)
    (rest : List Nat), (∀ h ∈ hs, wfHeader h) → n < hs.length →
    parseHeaders n ((hs.map headerLine).flatten ++ 13 :: 10 :: rest) = .bad := by
  intro hs
  induction hs with
  | nil => intro n rest _ hn; simp at hn
  | cons h hs ih =>
    intro n rest hw hn
    have hflat : ((h :: hs).map headerLine).flatten ++ 13 :: 10 :: rest
        = headerLine h ++ ((hs.map headerLine).flatten ++ 13 :: 10 :: rest) := by
      simp
    cases n with
    | zero =>
      rw [hflat, parseHeaders_zero h _ (hw h (by simp))]
    | succ m =>
      rw [hflat, parseHeaders_step m h _ (hw h (by simp)),
        ih m rest (fun x hx => hw x (by simp [hx])) (by simp at hn; omega)]

theorem parseRequest_build_gen (m p : List Nat) (hs : List (List Nat × List Nat))
    (body : List Nat) (hm1 : m ≠ []) (hm2 : ∀ b ∈ m, isTok b = true)
    (hp1 : p ≠ []) (hp2 : ∀ b ∈ p, isUriChar b = true) :
    parseRequest (buildRequest m p hs body)
      = prBind (parseHeaders 64 ((hs.map headerLine).flatten ++ 13 :: 10 :: body))
          (fun hb => .done (m, p, hb.1, hb.2)) := by
  unfold parseRequest buildRequest
  rw [scanToken_ok isTok 32 (by decide) m _ hm1 hm2]
  simp only []
  rw [scanToken_ok isUriChar 32 (by decide) p _ hp1 hp2]
  simp only []
  rw [expectLit_append versionBytes _]
  simp only []
  cases hX : parseHeaders 64 ((hs.map headerLine).flatten ++ 13 :: 10 :: body) with
  | more => simp [prBind, hX]
  | bad => simp [prBind, hX]
  | done a => simp [prBind, hX]

/-- Claim C10: `Request::from_bytes` accepts at most 64 headers; a request
that is otherwise well-formed but carries more than 64 header lines fails
with `Parser` rather than dropping the excess headers. -/
theorem c10_header_limit (P : List Nat) (hs : List (List Nat × List Nat))
    (body : List Nat)
    (hP1 : P ≠ []) (hP2 : ∀ b ∈ P, isUriChar b = true)
    (hh : ∀ h ∈ hs, wfHeader h) (hn : 64 < hs.length) :
    Request.fromBytes (buildRequest (strBytes "GET") P hs body) = .error .Parser := by
  have hgen := parseRequest_build_gen (strBytes "GET") P hs body
    (by decide) (by decide) hP1 hP2
  have hover := parseHeaders_overflow hs 64 body hh hn
  unfold Request.fromBytes
  rw [hgen, hover]
  rfl

theorem c10_header_limit_witness :
    Request.fromBytes (buildRequest (strBytes "GET") (strBytes "/")
        (List.replicate 65 (strBytes "A", strBytes "b")) []) = .error .Parser := by
  refine c10_header_limit (strBytes "/") (List.replicate 65 (strBytes "A", strBytes "b")) []
    (by decide) (by decide) ?_ (by decide)
  intro h hmem
  rw [List.eq_of_mem_replicate hmem]
  decide

theorem hasDotDot_false_of_no46 : ∀ l : List Nat, (∀ b ∈ l, b ≠ 46) →
    hasDotDot l = false := by
  intro l
  induction l with
  | nil => intro _; rfl
  | cons a r ih =>
    intro hl
    cases r with
    | nil => rfl
    | cons b r2 =>
      have ha : (a == 46) = false :=
        beq_eq_false_iff_ne.mpr (hl a (by simp))
      rw [hasDotDot.eq_def]
      simp only [ha, Bool.false_and, Bool.false_or]
      exact ih (fun x hx => hl x (by simp [hx]))

theorem bigPath_mem : ∀ b ∈ bigPath, b = 47 ∨ b = 37 ∨ b = 54 ∨ b = 49 := by
  intro b hb
  simp only [bigPath, List.mem_cons, List.mem_flatten, List.mem_replicate] at hb
  rcases hb with rfl | ⟨l, ⟨-, rfl⟩, hbl⟩
  · exact Or.inl rfl
  · simp at hbl
    omega

theorem bigPath_length : bigPath.length = 4099 := by
  unfold bigPath
  rw [List.length_cons, List.length_flatten, List.map_replicate, List.sum_replicate,
    smul_eq_mul]
  norm_num

theorem percentDecode_repEsc : ∀ n : Nat,
    percentDecode ((List.replicate n [37, 54, 49]).flatten) = List.replicate n 97 := by
  intro n
  induction n with
  | zero => simp [percentDecode]
  | succ k ih =>
    rw [List.replicate_succ, List.flatten_cons]
    show percentDecode (37 :: 54 :: 49 :: (List.replicate k [37, 54, 49]).flatten)
      = List.replicate (k + 1) 97
    rw [percentDecode.eq_def]
    norm_num [isHex, hexVal, ih, List.replicate_succ]

theorem utf8Fix_replicate_ascii (c : Nat) (hc : c < 0x80) :
    ∀ n : Nat, utf8Fix (List.replicate n c) = List.replicate n c := by
  intro n
  induction n with
  | zero => rfl
  | succ k ih => rw [List.replicate_succ, uf_ascii hc, ih]

theorem decode_bigPath : decode bigPath = 47 :: List.replicate 1366 97 := by
  unfold decode bigPath
  rw [percentDecode_cons_ne 47 _ (by omega), percentDecode_repEsc 1366,
    uf_ascii (by omega), utf8Fix_replicate_ascii 97 (by omega) 1366]

/-- Claim C1 amended: for every buffer that parses as a complete request
with a recognized method, `Request::from_bytes` returns a `Security` error
exactly when the raw (undecoded) path component — the target before the
first `?` — exceeds 4096 bytes or contains the literal substring `..`;
otherwise no `Security` error is returned. -/
theorem c1_security_raw (buf m p : List Nat) (hs : List (List Nat × List Nat))
    (body : List Nat) (mth : Method)
    (hparse : parseRequest buf = .done (m, p, hs, body))
    (hm : methodFromBytes m = some mth) :
    (∃ r, Request.fromBytes buf = .error (.Security r)) ↔
      (4 * 1024 < (Uri.ofRaw p).path.length ∨ hasDotDot (Uri.ofRaw p).path = true) := by
  unfold Request.fromBytes
  rw [hparse]
  simp only []
  rw [hm]
  simp only []
  by_cases h1 : 4 * 1024 < (Uri.ofRaw p).path.length
  · rw [if_pos h1]
    simp [h1]
  · rw [if_neg h1]
    by_cases h2 : hasDotDot (Uri.ofRaw p).path = true
    · rw [if_pos h2]
      simp [h1, h2]
    · rw [Bool.not_eq_true] at h2
      rw [h2]
      simp [h1, h2]

theorem c1_security_raw_witness :
    (∃ r, Request.fromBytes (buildRequest (strBytes "GET") (strBytes "/..") [] [])
        = .error (.Security r)) ↔
      (4 * 1024 < (Uri.ofRaw (strBytes "/..")).path.length
        ∨ hasDotDot (Uri.ofRaw (strBytes "/..")).path = true) :=
  c1_security_raw (buildRequest (strBytes "GET") (strBytes "/..") [] [])
    (strBytes "GET") (strBytes "/..") [] [] Method.get (by rfl) (by decide)

/-- Claim C1 counterexample: a request whose raw path has 4099 bytes but
whose decoded path has only 1367 bytes and which contains no `..` is
rejected with a `Security` error, although the claim (conditioning on the
decoded path length) says no `Security` error is returned for it. -/
theorem c1_security_raw_cex :
    (∃ r, Request.fromBytes (buildRequest (strBytes "GET") bigPath [] [])
        = .error (.Security r))
    ∧ (decode bigPath).length ≤ 4096
    ∧ hasDotDot bigPath = false
    ∧ ¬ ((∃ r, Request.fromBytes (buildRequest (strBytes "GET") bigPath [] [])
            = .error (.Security r)) ↔
          (4096 < (decode bigPath).length ∨ hasDotDot bigPath = true)) := by
  have hq63 : (63 : Nat) ∉ bigPath := by
    intro hc
    have := bigPath_mem 63 hc
    omega
  have hdd : hasDotDot bigPath = false := by
    refine hasDotDot_false_of_no46 bigPath (fun b hb => ?_)
    have := bigPath_mem b hb
    omega
  have hparse := parseRequest_build (strBytes "GET") bigPath [] []
    (by decide) (by decide)
    (by unfold bigPath; exact List.cons_ne_nil _ _)
    (fun b hb => by
      have := bigPath_mem b hb
      simp only [isUriChar]
      simp only [Bool.and_eq_true, decide_eq_true_eq]
      omega)
    (by simp) (by simp)
  have hsec : Request.fromBytes (buildRequest (strBytes "GET") bigPath [] [])
      = .error (.Security "exceeds size of 4kb") := by
    unfold Request.fromBytes
    rw [hparse]
    simp only []
    rw [show methodFromBytes (strBytes "GET") = some Method.get from by decide]
    simp only [uriOfRaw_no_query bigPath hq63]
    rw [if_pos (by rw [bigPath_length]; omega)]
  have hdlen : (decode bigPath).length ≤ 4096 := by
    rw [decode_bigPath, List.length_cons, List.length_replicate]
    omega
  refine ⟨⟨"exceeds size of 4kb", hsec⟩, hdlen, hdd, ?_⟩
  intro hiff
  have hr := hiff.mp ⟨"exceeds size of 4kb", hsec⟩
  rw [hdd] at hr
  rcases hr with hlt | hfalse
  · omega
  · cases hfalse


theorem scanToken_take_more (allowed : Nat → Bool) (stop : Nat)
    (hstop : allowed stop = false) (t : List Nat) (hT : ∀ b ∈ t, allowed b = true)
    (k : Nat) :
    scanToken allowed stop (t.take k) = .more :=
  scanToken_more allowed stop hstop (t.take k)
    (fun b hb => hT b (List.mem_of_mem_take hb))

theorem parseRequest_take_more (m p : List Nat)
    (hm1 : m ≠ []) (hm2 : ∀ b ∈ m, isTok b = true)
    (hp1 : p ≠ []) (hp2 : ∀ b ∈ p, isUriChar b = true) (k : Nat)
    (hk : k < (requestLine m p).length) :
    parseRequest ((requestLine m p).take k) = .more := by
  have hlen : (requestLine m p).length = m.length + 1 + (p.length + 1 + 10) := by
    simp [requestLine, versionBytes]
    omega
  unfold requestLine at *
  rcases Nat.lt_or_ge k (m.length + 1) with hc1 | hc1
  · have htake : (m ++ 32 :: (p ++ 32 :: versionBytes)).take k = m.take k := by
      rw [List.take_append_eq_append_take]
      have h0 : k - m.length = 0 := by omega
      rw [h0]
      simp
    rw [htake]
    unfold parseRequest
    rw [scanToken_take_more isTok 32 (by decide) m hm2 k]
  · have htake : (m ++ 32 :: (p ++ 32 :: versionBytes)).take k
        = m ++ 32 :: ((p ++ 32 :: versionBytes).take (k - m.length - 1)) := by
      rw [List.take_append_eq_append_take,
        List.take_of_length_le (by omega : m.length ≤ k)]
      have h1 : k - m.length = (k - m.length - 1) + 1 := by omega
      rw [h1, List.take_succ_cons]
      simp
    rw [htake]
    unfold parseRequest
    rw [scanToken_ok isTok 32 (by decide) m _ hm1 hm2]
    simp only []
    rcases Nat.lt_or_ge (k - m.length - 1) (p.length + 1) with hc2 | hc2
    · have htake2 : (p ++ 32 :: versionBytes).take (k - m.length - 1)
          = p.take (k - m.length - 1) := by
        rw [List.take_append_eq_append_take]
        have h0 : k - m.length - 1 - p.length = 0 := by omega
        rw [h0]
        simp
      rw [htake2, scanToken_take_more isUriChar 32 (by decide) p hp2 _]
    · have htake2 : (p ++ 32 :: versionBytes).take (k - m.length - 1)
          = p ++ 32 :: versionBytes.take (k - m.length - 1 - p.length - 1) := by
        rw [List.take_append_eq_append_take,
          List.take_of_length_le (by omega : p.length ≤ k - m.length - 1)]
        have h1 : k - m.length - 1 - p.length = (k - m.length - 1 - p.length - 1) + 1 := by
          omega
        rw [h1, List.take_succ_cons]
        simp
      rw [htake2]
      rw [scanToken_ok isUriChar 32 (by decide) p _ hp1 hp2]
      simp only []
      have hk3 : k - m.length - 1 - p.length - 1 < versionBytes.length := by
        simp only [versionBytes, List.length_cons, List.length_nil]
        omega
      rw [expectLit_take versionBytes _ hk3]

/-- Claim C6 counterexample: the one-byte buffer `0x00` is shorter than any
complete request line, yet `Request::from_bytes` returns `Parser`, not
`Incomplete`: the byte cannot start a method token. -/
theorem c6_truncated_cex :
    Request.fromBytes [0] = .error .Parser
      ∧ Request.fromBytes [0] ≠ .error .Incomplete := by
  constructor
  · rfl
  · intro h
    cases h

/-- Claim C6 amended: every proper prefix of a well-formed request line (a
syntactically valid but truncated request) parses to `Incomplete`, never
`Parser`. -/
theorem c6_truncated_incomplete (m p : List Nat)
    (hm1 : m ≠ []) (hm2 : ∀ b ∈ m, isTok b = true)
    (hp1 : p ≠ []) (hp2 : ∀ b ∈ p, isUriChar b = true) (k : Nat)
    (hk : k < (requestLine m p).length) :
    Request.fromBytes ((requestLine m p).take k) = .error .Incomplete := by
  unfold Request.fromBytes
  rw [parseRequest_take_more m p hm1 hm2 hp1 hp2 k hk]

theorem c6_truncated_incomplete_witness :
    Request.fromBytes ((requestLine (strBytes "GET") (strBytes "/")).take 5)
      = .error .Incomplete :=
  c6_truncated_incomplete (strBytes "GET") (strBytes "/")
    (by decide) (by decide) (by decide) (by decide) 5 (by decide)

theorem collectE_ok : ∀ mws : List MiddlewareFn,
    collectE (mws.map Except.ok) = .ok mws := by
  intro mws
  induction mws with
  | nil => rfl
  | cons a rest ih =>
    rw [List.map_cons, collectE.eq_def]
    simp [ih]

theorem collectE_error : ∀ (pre : List (Except HError MiddlewareFn)) (e : HError)
    (rest : List (Except HError MiddlewareFn)),
    (∀ x ∈ pre, ∃ mw, x = .ok mw) →
    collectE (pre ++ .error e :: rest) = .error e := by
  intro pre
  induction pre with
  | nil =>
    intro e rest _
    rw [List.nil_append, collectE.eq_def]
  | cons x pre ih =>
    intro e rest hpre
    obtain ⟨mw, rfl⟩ := hpre x (by simp)
    rw [List.cons_append, collectE.eq_def]
    simp [ih e rest (fun y hy => hpre y (by simp [hy]))]

theorem matcherAdd_restRoute (base : Route)
    (hwf : routeWf (base ++ restRoute) = true) :
    Matcher.new.add (base ++ restRoute) = .ok ⟨[base ++ restRoute]⟩ := by
  unfold Matcher.add Matcher.new
  rw [hwf]
  simp

theorem tryIntoMiddleware_error (scope : Scope) (pre post : List Factory)
    (f : Factory) (e : HError) (hscope : scopeOk scope)
    (hpre : ∀ g ∈ pre, ∃ mw, g scope = .ok mw) (hf : f scope = .error e) :
    Builder.tryIntoMiddleware ⟨pre ++ f :: post⟩ scope = .error e := by
  have hcoll : collectE (((⟨pre ++ f :: post⟩ : Builder)).middlewares.map
      (fun g => g scope)) = .error e := by
    show collectE ((pre ++ f :: post).map (fun g => g scope)) = .error e
    rw [List.map_append, List.map_cons, hf]
    refine collectE_error _ e _ ?_
    intro x hx
    obtain ⟨g, hg, rfl⟩ := List.mem_map.mp hx
    exact hpre g hg
  unfold Builder.tryIntoMiddleware
  cases hroute : scope.route with
  | none =>
    simp only []
    rw [hcoll]
  | some base =>
    simp only []
    rw [matcherAdd_restRoute base (hscope base hroute)]
    simp only []
    rw [hcoll]

theorem tryIntoMiddleware_ok (scope : Scope) (fs : List Factory)
    (mws : List MiddlewareFn) (hscope : scopeOk scope)
    (hall : fs.map (fun g => g scope) = mws.map Except.ok) :
    ∃ stk : Stack, Builder.tryIntoMiddleware ⟨fs⟩ scope = .ok stk
      ∧ stk.middlewares = mws := by
  have hcoll : collectE (((⟨fs⟩ : Builder)).middlewares.map (fun g => g scope))
      = .ok mws := by
    show collectE (fs.map (fun g => g scope)) = .ok mws
    rw [hall]
    exact collectE_ok mws
  unfold Builder.tryIntoMiddleware
  cases hroute : scope.route with
  | none =>
    simp only []
    rw [hcoll]
    exact ⟨_, rfl, rfl⟩
  | some base =>
    simp only []
    rw [matcherAdd_restRoute base (hscope base hroute)]
    simp only []
    rw [hcoll]
    exact ⟨_, rfl, rfl⟩

/-- Claim C3: resolution of a builder invokes the accumulated factories with
the scope in registration order, and the first failure aborts immediately:
the failing factory's error is returned (for `try_into_middleware` with any
scope whose prefix matcher compiles, and for `try_into_handler` via the
default root scope), no stack is produced, and the factories after the
failing one are never invoked — the result is the same for every
continuation of the factory list.  On all-successful factories the stack
holds the produced middlewares in registration order. -/
theorem c3_failfast :
    (∀ (scope : Scope) (pre post : List Factory) (f : Factory) (e : HError),
      scopeOk scope →
      (∀ g ∈ pre, ∃ mw, g scope = .ok mw) →
      f scope = .error e →
      Builder.tryIntoMiddleware ⟨pre ++ f :: post⟩ scope = .error e
        ∧ ∀ post2 : List Factory,
          Builder.tryIntoMiddleware ⟨pre ++ f :: post⟩ scope
            = Builder.tryIntoMiddleware ⟨pre ++ f :: post2⟩ scope)
    ∧ (∀ (pre post : List Factory) (f : Factory) (e : HError),
      (∀ g ∈ pre, ∃ mw, g Scope.root = .ok mw) →
      f Scope.root = .error e →
      Builder.tryIntoHandler ⟨pre ++ f :: post⟩ = .error e)
    ∧ (∀ (scope : Scope) (fs : List Factory) (mws : List MiddlewareFn),
      scopeOk scope →
      fs.map (fun g => g scope) = mws.map Except.ok →
      ∃ stk : Stack, Builder.tryIntoMiddleware ⟨fs⟩ scope = .ok stk
        ∧ stk.middlewares = mws) := by
  have hroot : scopeOk Scope.root := by
    intro base hb
    cases hb
  refine ⟨?_, ?_, tryIntoMiddleware_ok⟩
  · intro scope pre post f e hscope hpre hf
    refine ⟨tryIntoMiddleware_error scope pre post f e hscope hpre hf, ?_⟩
    intro post2
    rw [tryIntoMiddleware_error scope pre post f e hscope hpre hf,
      tryIntoMiddleware_error scope pre post2 f e hscope hpre hf]
  · intro pre post f e hpre hf
    exact tryIntoMiddleware_error Scope.root pre post f e hroot hpre hf

theorem c3_failfast_witness :
    Builder.tryIntoMiddleware
      (⟨[fun _ => .ok (fun _ _ => Response.new),
         fun _ => .error (.middleware "boom"),
         fun _ => .ok (fun _ _ => Response.new)]⟩ : Builder)
      ⟨some [Segment.static (strBytes "api")]⟩
      = .error (.middleware "boom")
    ∧ Builder.tryIntoHandler
      (⟨[fun _ => .error (.matcher "bad")]⟩ : Builder) = .error (.matcher "bad") := by
  constructor
  · have h := (c3_failfast.1 ⟨some [Segment.static (strBytes "api")]⟩
      [fun _ => .ok (fun _ _ => Response.new)]
      [fun _ => .ok (fun _ _ => Response.new)]
      (fun _ => .error (.middleware "boom")) (.middleware "boom")
      (by
        intro base hb
        injection hb with hb2
        subst hb2
        rfl)
      (by
        intro g hg
        rw [List.mem_singleton] at hg
        subst hg
        exact ⟨_, rfl⟩)
      rfl).1
    exact h
  · exact c3_failfast.2.1 [] []
      (fun _ => .error (.matcher "bad")) (.matcher "bad")
      (by intro g hg; cases hg) rfl

/-- Claim C8: `NotFound::handle` answers every request with a response whose
status is 404 Not Found and whose body is a plain-text string equal to that
status's canonical name. -/
theorem c8_notfound (req : Request) :
    (notFoundHandle req).status = Status.notFound
    ∧ Status.code (notFoundHandle req).status = 404
    ∧ (notFoundHandle req).body = strBytes (Status.name Status.notFound)
    ∧ (Header.contentType, strBytes "text/plain; charset=utf-8")
        ∈ (notFoundHandle req).headers := by
  refine ⟨rfl, rfl, rfl, ?_⟩
  show (Header.contentType, strBytes "text/plain; charset=utf-8")
    ∈ (Response.fromStatus Status.notFound).headers
  decide

/-- Claim C9: every function of the handler or middleware shape whose result
converts into a response satisfies the respective contract through the
blanket adapters (plain function values included), and when the result is a
`Result` carrying an error the adapted handler or middleware answers with a
plain 500 Internal Server Error response. -/
theorem c9_adapters :
    (∀ (f : Request → Response) (req : Request), handlerOfFn f req = f req)
    ∧ (∀ (g : Request → HandlerFn → Response) (req : Request) (next : HandlerFn),
        middlewareOfFn g req next = g req next)
    ∧ (∀ (E : Type) (f : Request → Except E Response) (req : Request)
        (res : Response), f req = .ok res → handlerOfFn f req = res)
    ∧ (∀ (E : Type) (f : Request → Except E Response) (req : Request) (e : E),
        f req = .error e →
        handlerOfFn f req = Response.fromStatus Status.internalServerError)
    ∧ (∀ (E : Type) (g : Request → HandlerFn → Except E Response) (req : Request)
        (next : HandlerFn) (res : Response),
        g req next = .ok res → middlewareOfFn g req next = res)
    ∧ (∀ (E : Type) (g : Request → HandlerFn → Except E Response) (req : Request)
        (next : HandlerFn) (e : E),
        g req next = .error e →
        middlewareOfFn g req next = Response.fromStatus Status.internalServerError) := by
  refine ⟨fun f req => rfl, fun g req next => rfl, ?_, ?_, ?_, ?_⟩
  · intro E f req res h
    unfold handlerOfFn
    rw [h]
    rfl
  · intro E f req e h
    unfold handlerOfFn
    rw [h]
    rfl
  · intro E g req next res h
    unfold middlewareOfFn
    rw [h]
    rfl
  · intro E g req next e h
    unfold middlewareOfFn
    rw [h]
    rfl

theorem c9_adapters_witness :
    handlerOfFn (fun _ => (.error () : Except Unit Response)) Request.new
      = Response.fromStatus Status.internalServerError
    ∧ middlewareOfFn (fun _ _ => (.ok Response.new : Except Unit Response))
        Request.new notFoundHandle = Response.new :=
  ⟨c9_adapters.2.2.2.1 Unit (fun _ => .error ()) Request.new () rfl,
   c9_adapters.2.2.2.2.1 Unit (fun _ _ => .ok Response.new) Request.new
     notFoundHandle Response.new rfl⟩

end Zense
